import Mathlib

/-!
Verification of the fallback-capable market data consumer
(consumers/project_consumer_data-git-hub.py).

Shallow embedding conventions:
* Python floats are modelled by `PyFloat` (a rational, or one of the
  non-finite values nan / inf / -inf); the pure price arithmetic of the
  series builder is modelled over `ℚ`.
* Values produced by `json.loads` are modelled by `JVal`; a payload whose
  JSON parse fails is modelled as `none`.
* The module-level mutable state (store, WS_ACTIVE, WS_FAILED,
  update_chart._last_poll) is threaded explicitly through `SysState`;
  the Python sets WS_ACTIVE / WS_FAILED are modelled as lists of decoded
  values, consumed only through membership.
* Network calls are modelled by passing the decoded response as a
  parameter (`none` = the request or its decode raised); every request
  actually issued is recorded as a `Fetch` value so that rate-limit claims
  can count fetches.
* A Python exception escaping to an enclosing `except` clause is modelled
  with `Except Unit`.
-/

namespace FxConsumer

/-- Configuration constant SYMBOLS from the source: the statically
configured symbol list. -/
def SYMBOLS : List String := ["EUR/USD", "AAPL", "BTC/USD"]

/-- Configuration constant MAX_TICKS_PER_SYMBOL from the source: the deque
capacity per symbol. -/
def MAX_TICKS_PER_SYMBOL : Nat := 300

/-- Configuration constant FALLBACK_POLL_SECONDS from the source. -/
def FALLBACK_POLL_SECONDS : ℚ := 15

/-- A Python float: either a finite value (modelled as a rational) or one
of the non-finite values produced by float("nan"), float("inf"),
float("-inf"). -/
inductive PyFloat where
  | fin (q : ℚ)
  | nan
  | inf
  | ninf
deriving DecidableEq

/-- Python truthiness of a float: zero is falsy, every other float, nan
and the infinities included, is truthy. -/
def PyFloat.truthy : PyFloat → Bool
  | .fin q => decide (q ≠ 0)
  | _ => true

/-- The value 1.0 / x for a Python float (1/inf is 0.0, 1/nan is nan); the
call sites guard with truthiness, so the x = 0 case is unreachable. -/
def PyFloat.pyInv : PyFloat → PyFloat
  | .fin q => .fin q⁻¹
  | .nan => .nan
  | .inf => .fin 0
  | .ninf => .fin 0

/-- A value produced by json.loads, which by default also accepts the
non-standard literals NaN / Infinity, here folded into `num`. -/
inductive JVal where
  | num (f : PyFloat)
  | str (s : String)
  | bool (b : Bool)
  | null
  | arr (xs : List JVal)
  | obj (kvs : List (String × JVal))

/-- Python truthiness of a decoded JSON value. -/
def JVal.truthy : JVal → Bool
  | .num f => f.truthy
  | .str s => !(s == "")
  | .bool b => b
  | .null => false
  | .arr xs => !xs.isEmpty
  | .obj kvs => !kvs.isEmpty

/-- Numeric value of a digit list, accumulated left to right. -/
def digitsVal (cs : List Char) : Nat :=
  cs.foldl (fun n c => 10 * n + (c.toNat - 48)) 0

/-- Model of Python's float(s) on strings, restricted to the shapes the
consumer can meet: an optional sign, the words nan / inf / infinity, and
decimal literals with an optional fractional part; every other string is
treated as a parse failure (ValueError). -/
def strToFloat (s : String) : Option PyFloat :=
  let sgncs : ℚ × List Char :=
    match s.toList with
    | '-' :: rest => (-1, rest)
    | '+' :: rest => (1, rest)
    | cs => (1, cs)
  let sgn := sgncs.1
  let cs := sgncs.2
  let w := String.mk cs
  if w = "nan" then some .nan
  else if w = "inf" || w = "infinity" then some (if sgn < 0 then .ninf else .inf)
  else
    let ip := (cs.span (fun c => !(c == '.'))).1
    let rest := (cs.span (fun c => !(c == '.'))).2
    match rest with
    | [] =>
      if !ip.isEmpty && ip.all Char.isDigit then some (.fin (sgn * digitsVal ip)) else none
    | _ :: fp =>
      if (ip.isEmpty && fp.isEmpty) || !(ip.all Char.isDigit && fp.all Char.isDigit)
          || fp.any (· == '.') then none
      else some (.fin (sgn * ((digitsVal ip : ℚ) + (digitsVal fp : ℚ) / (10 ^ fp.length : ℚ))))

/-- Model of Python's float(x) applied to a decoded JSON value; `none`
models the call raising (TypeError / ValueError). A Python bool is an int,
so it converts. -/
def pyFloatOf : JVal → Option PyFloat
  | .num f => some f
  | .str s => strToFloat s
  | .bool b => some (.fin (if b then 1 else 0))
  | _ => none

/-- Membership test of a string in a Python set modelled as a list of
decoded values (a non-string member never equals a string). -/
def memStr (s : String) (l : List JVal) : Bool :=
  l.any fun v => match v with
    | .str t => t == s
    | _ => false

/-- Candidate price field names, in the order the source tries them. -/
def candidatePriceKeys : List String := ["price", "last", "close", "bid"]

/-- One iteration of the price-extraction loop of parse_price_message: if
k is a key of the event object, try float(obj[k]); a conversion failure is
swallowed by the inner except and the loop moves on, modelled as `none`. -/
def tryPriceKey (kvs : List (String × JVal)) (k : String) : Option PyFloat :=
  match List.lookup k kvs with
  | none => none
  | some v => pyFloatOf v

/-- The price-extraction loop of parse_price_message: the value of the
first candidate key that is present and converts under float. -/
def extract_price (kvs : List (String × JVal)) : Option PyFloat :=
  candidatePriceKeys.findSome? (tryPriceKey kvs)

/-- The guard of parse_price_message that keeps only events whose "event"
field is absent, null, or one of "price" / "trade" / "quote" (a JSON null
value reads back as Python None, which is in the allowed tuple). -/
def eventFieldOk (kvs : List (String × JVal)) : Bool :=
  match List.lookup "event" kvs with
  | none => true
  | some .null => true
  | some (.str s) => s == "price" || s == "trade" || s == "quote"
  | some _ => false

/-- Timestamp extraction of parse_price_message: numeric values are taken
as-is (a Python bool is an int), numeric strings are parsed, and anything
absent or unparsable falls back to the receipt time `now`. -/
def extract_ts (kvs : List (String × JVal)) (now : ℚ) : PyFloat :=
  match List.lookup "timestamp" kvs with
  | some (.num f) => f
  | some (.bool b) => .fin (if b then 1 else 0)
  | some (.str s) => (strToFloat s).getD (.fin now)
  | _ => .fin now

/-- Function parse_price_message from the source; `.error` models the
AttributeError raised by obj.get when the event is not a dict, `.ok none`
models return None (the event is discarded). -/
def parse_price_message (obj : JVal) (now : ℚ) :
    Except Unit (Option (JVal × PyFloat × PyFloat)) :=
  match obj with
  | .obj kvs =>
    if !eventFieldOk kvs then .ok none
    else
      match List.lookup "symbol" kvs with
      | none => .ok none
      | some symv =>
        if !symv.truthy then .ok none
        else
          match extract_price kvs with
          | none => .ok none
          | some price => .ok (some (symv, price, extract_ts kvs now))
  | _ => .error ()

/-- A stored price point (ts_s, price), exactly as appended by the source. -/
abbrev PricePoint := PyFloat × PyFloat

/-- The rolling per-symbol buffers (the module-level store): an association
list whose keys are fixed at startup. -/
abbrev StoreT := List (String × List PricePoint)

/-- Append on a deque with maxlen N: append on the right, then drop from
the left whatever exceeds the capacity (for N = 0 nothing is retained,
matching Python). -/
def dequeAppend (N : Nat) (dq : List α) (x : α) : List α :=
  (dq ++ [x]).drop (dq.length + 1 - N)

/-- Effect of store[sym].append(pt): append into the buffer of sym; a
store without the key is left unchanged (the call sites either guard with
membership or, for the hardcoded EUR/USD append, would raise a KeyError
that the surrounding except catches before any mutation). -/
def storeAppend (st : StoreT) (sym : String) (pt : PricePoint) : StoreT :=
  st.map fun p => if p.1 = sym then (p.1, dequeAppend MAX_TICKS_PER_SYMBOL p.2 pt) else p

/-- The module-level mutable state of the consumer. -/
structure SysState where
  store : StoreT
  wsActive : List JVal
  wsFailed : List JVal
  lastPoll : Option ℚ

/-- Initial value of the store: one empty deque per configured symbol. -/
def initStore : StoreT := SYMBOLS.map fun s => (s, [])

/-- The state at module initialisation. -/
def initState : SysState :=
  { store := initStore, wsActive := [], wsFailed := [], lastPoll := none }

/-- The set comprehension collecting d.get("symbol") over obj.get(field, [])
for truthy symbols: a missing field defaults to the empty list; a non-list
field, or a non-dict element, raises out of the handler body. -/
def ackSymbols (kvs : List (String × JVal)) (field : String) :
    Except Unit (List JVal) :=
  match List.lookup field kvs with
  | none => .ok []
  | some (.arr ds) => do
    let opts ← ds.mapM fun d =>
      match d with
      | .obj dkvs => Except.ok (List.lookup "symbol" dkvs)
      | _ => Except.error ()
    .ok ((opts.filterMap id).filter JVal.truthy)
  | some _ => .error ()

/-- The test obj.get("event") == "subscribe-status". -/
def isSubscribeStatus (kvs : List (String × JVal)) : Bool :=
  match List.lookup "event" kvs with
  | some (.str s) => s == "subscribe-status"
  | _ => false

/-- Processing of one event of an inbound batch (the body of the for-loop
of on_message): a subscribe-status event unions its success / fails
symbols into WS_ACTIVE / WS_FAILED; a parsed price tick for a stored
symbol is appended and the symbol defensively added to WS_ACTIVE; an
unparsable event is skipped; `.error` models an exception escaping the
loop body. -/
def processEvent (s : SysState) (obj : JVal) (now : ℚ) : Except Unit SysState :=
  match obj with
  | .obj kvs =>
    if isSubscribeStatus kvs then do
      let succ ← ackSymbols kvs "success"
      let fail ← ackSymbols kvs "fails"
      .ok { s with wsActive := s.wsActive ++ succ, wsFailed := s.wsFailed ++ fail }
    else do
      let parsed ← parse_price_message (.obj kvs) now
      match parsed with
      | none => .ok s
      | some (symv, price, ts) =>
        match symv with
        | .str sym =>
          if (List.lookup sym s.store).isSome then
            .ok { s with store := storeAppend s.store sym (ts, price),
                         wsActive := s.wsActive ++ [.str sym] }
          else .ok s
        | _ => .ok s
  | _ => .error ()

/-- The for-loop of on_message over a batch: events are processed left to
right; an exception aborts the rest of the batch (updates already applied
persist) and is caught by the handler's except clause (the Bool records
whether that happened). -/
def processBatch : SysState → List JVal → ℚ → SysState × Bool
  | s, [], _ => (s, false)
  | s, obj :: rest, now =>
    match processEvent s obj now with
    | .ok s' => processBatch s' rest now
    | .error _ => (s, true)

/-- The wrapping of a decoded payload into a batch: a list as-is, anything
else as a singleton. -/
def batchOf : JVal → List JVal
  | .arr xs => xs
  | v => [v]

/-- Handler on_message from the source: the whole body runs inside
try/except, so the handler always returns and never re-raises; msg = none
models a payload whose json.loads raises; now is the receipt time used for
missing timestamps. -/
def on_message (s : SysState) (msg : Option JVal) (now : ℚ) : SysState :=
  match msg with
  | none => s
  | some data => (processBatch s (batchOf data) now).1

/-- A performed network request: a Twelve Data /price batch request for
the given symbols, or an exchangerate.host /latest request. -/
inductive Fetch where
  | td (syms : List String)
  | ex
deriving DecidableEq

/-- The conversion float(obj.get("price")) inside the per-item try of the
multi-symbol branch: any failure (non-dict item, missing key, unconvertible
value) is continue, modelled as `none`. -/
def tdItemPrice : JVal → Option PyFloat
  | .obj okvs =>
    match List.lookup "price" okvs with
    | some pv => pyFloatOf pv
    | none => none
  | _ => none

/-- The loop over payload.items() of poll_twelvedata_price_once: append a
point at time now for every item whose price converts and whose key is a
stored symbol, counting the points added. -/
def tdApplyMulti (st : StoreT) (items : List (String × JVal)) (now : ℚ) :
    StoreT × Nat :=
  match items with
  | [] => (st, 0)
  | it :: rest =>
    match tdItemPrice it.2 with
    | none => tdApplyMulti st rest now
    | some price =>
      if (List.lookup it.1 st).isSome then
        let r := tdApplyMulti (storeAppend st it.1 (.fin now, price)) rest now
        (r.1, r.2 + 1)
      else tdApplyMulti st rest now

/-- Function poll_twelvedata_price_once from the source, acting on the
store. Returns the new store, the number of points added, and the requests
performed; resp = none models the request or its JSON decode raising
(caught by the except, zero points added). The early return for a missing
API key or an empty symbol list happens before any request. -/
def poll_twelvedata_price_once (st : StoreT) (key : Option String)
    (symbols : List String) (resp : Option JVal) (now : ℚ) :
    StoreT × Nat × List Fetch :=
  if key.isNone || symbols.isEmpty then (st, 0, [])
  else
    match resp with
    | none => (st, 0, [.td symbols])
    | some payload =>
      match payload with
      | .obj kvs =>
        if (List.lookup "price" kvs).isSome && (List.lookup "symbol" kvs).isSome then
          match List.lookup "symbol" kvs, (List.lookup "price" kvs).bind pyFloatOf with
          | some (.str sym), some price =>
            if (List.lookup sym st).isSome then
              (storeAppend st sym (.fin now, price), 1, [.td symbols])
            else (st, 0, [.td symbols])
          | _, _ => (st, 0, [.td symbols])
        else
          let r := tdApplyMulti st kvs now
          (r.1, r.2, [.td symbols])
      | _ => (st, 0, [.td symbols])

/-- Function poll_exchangerate_host_eurusd_once from the source, acting on
the store: read rates.EUR from the response, append 1/rate for EUR/USD
when the rate is truthy and the derived price is truthy; every failure
path (request error, malformed body, missing or zero or unconvertible
rate) is caught and adds nothing. -/
def poll_exchangerate_host_eurusd_once (st : StoreT) (resp : Option JVal)
    (now : ℚ) : StoreT × Nat × List Fetch :=
  match resp with
  | none => (st, 0, [.ex])
  | some j =>
    match j with
    | .obj kvs =>
      match (List.lookup "rates" kvs).getD (.obj []) with
      | .obj rkvs =>
        match (List.lookup "EUR" rkvs).bind pyFloatOf with
        | none => (st, 0, [.ex])
        | some rate =>
          if rate.truthy then
            if rate.pyInv.truthy then
              if (List.lookup "EUR/USD" st).isSome then
                (storeAppend st "EUR/USD" (.fin now, rate.pyInv), 1, [.ex])
              else (st, 0, [.ex])
            else (st, 0, [.ex])
          else (st, 0, [.ex])
      | _ => (st, 0, [.ex])
    | _ => (st, 0, [.ex])

/-- The rate-limit test of update_chart: last poll unset, or at least
FALLBACK_POLL_SECONDS elapsed since it. -/
def pollDue (lastPoll : Option ℚ) (now : ℚ) : Bool :=
  match lastPoll with
  | none => true
  | some t => decide (FALLBACK_POLL_SECONDS ≤ now - t)

/-- The selection of update_chart: the configured symbols currently in
WS_FAILED, sorted as the source sorts them. -/
def rejectedSet (s : SysState) : List String :=
  (SYMBOLS.filter fun sym => memStr sym s.wsFailed).mergeSort fun a b => decide (a ≤ b)

/-- The cold-start test of update_chart: every stored buffer is empty. -/
def allBuffersEmpty (st : StoreT) : Bool := st.all fun p => p.2.isEmpty

/-- The rejected-symbols branch of update_chart: if any configured symbol
is WS-rejected and the global rate limit allows, poll Twelve Data REST for
exactly the rejected symbols, fall back to exchangerate.host when there is
no API key, nothing was added and EUR/USD is among the rejected, and stamp
the last-poll time. -/
def chartRejectedBranch (s : SysState) (key : Option String) (rTd rEx : Option JVal)
    (now : ℚ) : SysState × List Fetch :=
  let rejected := rejectedSet s
  if !rejected.isEmpty && pollDue s.lastPoll now then
    let r1 := poll_twelvedata_price_once s.store key rejected rTd now
    let r2 :=
      if r1.2.1 == 0 && key.isNone && rejected.contains "EUR/USD" then
        let rx := poll_exchangerate_host_eurusd_once r1.1 rEx now
        (rx.1, rx.2.2)
      else (r1.1, ([] : List Fetch))
    ({ s with store := r2.1, lastPoll := some now }, r1.2.2 ++ r2.2)
  else (s, [])

/-- The cold-start branch of update_chart: when every buffer is still
empty and the rate limit allows, seed via REST for all configured symbols
(exchangerate.host additionally when there is no API key) and stamp the
last-poll time. -/
def chartColdStartBranch (s : SysState) (key : Option String) (rTd rEx : Option JVal)
    (now : ℚ) : SysState × List Fetch :=
  if allBuffersEmpty s.store && pollDue s.lastPoll now then
    let r1 := poll_twelvedata_price_once s.store key SYMBOLS rTd now
    let r2 :=
      if key.isNone then
        let rx := poll_exchangerate_host_eurusd_once r1.1 rEx now
        (rx.1, rx.2.2)
      else (r1.1, ([] : List Fetch))
    ({ s with store := r2.1, lastPoll := some now }, r1.2.2 ++ r2.2)
  else (s, [])

/-- The fallback-polling part of update_chart (the chart drawing that
follows only reads the state); now stands for the time.time() readings of
one animation frame, and the response parameters feed the polls the branch
may perform. -/
def update_chart (s : SysState) (key : Option String) (r1 e1 r2 e2 : Option JVal)
    (now : ℚ) : SysState × List Fetch :=
  let b1 := chartRejectedBranch s key r1 e1 now
  let b2 := chartColdStartBranch b1.1 key r2 e2 now
  (b2.1, b1.2 ++ b2.2)

/-- Python's stable sort by timestamp (sorted with key = first component),
modelled by the stable List.mergeSort. -/
def sortByTs (dq : List (ℚ × ℚ)) : List (ℚ × ℚ) :=
  dq.mergeSort fun a b => decide (a.1 ≤ b.1)

/-- The per-symbol body of build_timeseries_pct, over finite prices
modelled as rationals; the datetime.fromtimestamp conversion is kept as
the identity on the timestamp. -/
def buildSeries (dq : List (ℚ × ℚ)) : List (ℚ × ℚ) :=
  if dq.isEmpty then []
  else
    let rows := sortByTs dq
    let p0 := (rows.head?.map Prod.snd).getD 0
    if p0 = 0 then rows.map fun r => (r.1, 0)
    else rows.map fun r => (r.1, (r.2 / p0 - 1) * 100)

/-- Function build_timeseries_pct from the source: the per-symbol series
for every stored symbol. -/
def build_timeseries_pct (st : List (String × List (ℚ × ℚ))) :
    List (String × List (ℚ × ℚ)) :=
  st.map fun p => (p.1, buildSeries p.2)

/-- The reachable states of the consumer: any interleaving of inbound
messages, standalone fallback polls (with arbitrary decoded responses),
and chart frames, from the initial module state. -/
inductive Reachable : SysState → Prop where
  | init : Reachable initState
  | msg {s} (m : Option JVal) (now : ℚ) : Reachable s → Reachable (on_message s m now)
  | pollTd {s} (key : Option String) (syms : List String) (resp : Option JVal) (now : ℚ) :
      Reachable s →
      Reachable { s with store := (poll_twelvedata_price_once s.store key syms resp now).1 }
  | pollEx {s} (resp : Option JVal) (now : ℚ) :
      Reachable s →
      Reachable { s with store := (poll_exchangerate_host_eurusd_once s.store resp now).1 }
  | chart {s} (key : Option String) (r1 e1 r2 e2 : Option JVal) (now : ℚ) :
      Reachable s → Reachable (update_chart s key r1 e1 r2 e2 now).1

/-- The fallback-selection rule as claim C3 states it: configured symbols
in Rejected, plus configured symbols never acknowledged whose buffer is
still empty. -/
def claimedFallbackSet (s : SysState) : List String :=
  SYMBOLS.filter fun sym =>
    memStr sym s.wsFailed ||
      (!memStr sym s.wsActive && !memStr sym s.wsFailed &&
        ((List.lookup sym s.store).getD []).isEmpty)

/-- The general cross-rate rule as claim C7 states it, for a pair
BASE/QUOTE against a table pivoted on pivot. -/
def claimedCrossRate (table : List (String × ℚ)) (pivot base quote : String) :
    Option ℚ :=
  if base = pivot then List.lookup quote table
  else if quote = pivot then
    match List.lookup base table with
    | some r => if r ≠ 0 then some (1 / r) else none
    | none => none
  else none

/-- Price extraction as claim C8 states it: the value of the first
candidate that parses as a finite number; non-finite parses are not taken. -/
def claimedExtractPrice (kvs : List (String × JVal)) : Option PyFloat :=
  candidatePriceKeys.findSome? fun k =>
    match tryPriceKey kvs k with
    | some (.fin q) => some (.fin q)
    | _ => none

/-- The symbols requested by a list of performed fetches (the
exchangerate.host request serves only EUR/USD). -/
def fetchedSymbols : List Fetch → List String
  | [] => []
  | .td syms :: rest => syms ++ fetchedSymbols rest
  | .ex :: rest => "EUR/USD" :: fetchedSymbols rest

/-- A minimal inbound price tick event for sym at price p. -/
def tickObj (sym : String) (p : ℚ) : JVal :=
  .obj [("symbol", .str sym), ("price", .num (.fin p))]

/-- A subscribe-status acknowledgement listing sym in the given field. -/
def ackObj (field : String) (sym : String) : JVal :=
  .obj [("event", .str "subscribe-status"), (field, .arr [.obj [("symbol", .str sym)]])]

/-- One deque append never leaves more than the capacity behind. -/
theorem length_dequeAppend_le (N : Nat) (dq : List α) (x : α) :
    (dequeAppend N dq x).length ≤ N := by
  simp only [dequeAppend, List.length_drop, List.length_append, List.length_singleton]
  omega

/-- Folding deque appends from a within-capacity start keeps exactly the
within-capacity tail of everything ever appended. -/
theorem foldl_dequeAppend (N : Nat) (xs : List α) :
    ∀ dq : List α, dq.length ≤ N →
      List.foldl (dequeAppend N) dq xs = (dq ++ xs).drop (dq.length + xs.length - N) := by
  induction xs with
  | nil =>
    intro dq h
    simp [Nat.sub_eq_zero_of_le h]
  | cons x xs ih =>
    intro dq h
    rw [List.foldl_cons, ih (dequeAppend N dq x) (length_dequeAppend_le N dq x)]
    have ha : dq.length + 1 - N ≤ (dq ++ [x]).length := by
      simp only [List.length_append, List.length_singleton]
      omega
    have key : dequeAppend N dq x ++ xs = ((dq ++ [x]) ++ xs).drop (dq.length + 1 - N) := by
      rw [dequeAppend, List.drop_append_of_le_length ha]
    have hl : (dequeAppend N dq x).length = dq.length + 1 - (dq.length + 1 - N) := by
      simp [dequeAppend]
    rw [key, List.drop_drop, hl]
    have hassoc : (dq ++ [x]) ++ xs = dq ++ (x :: xs) := by simp
    rw [hassoc]
    congr 1
    simp only [List.length_cons]
    omega

/-- The rolling buffer never exceeds its capacity. -/
theorem foldl_dequeAppend_length_le (N : Nat) (xs : List α) :
    (List.foldl (dequeAppend N) [] xs).length ≤ N := by
  rw [foldl_dequeAppend N xs [] (by simp)]
  simp only [List.nil_append, List.length_drop]
  omega

/-- C2: for every symbol buffer of capacity N, after N + k appends (k > 0)
starting empty, the final snapshot is exactly the last N appended points in
append order, and no sequence of appends ever leaves more than N points in
the buffer. -/
theorem c2_rolling_store (N k : Nat) (xs : List α) (hk : 0 < k)
    (hlen : xs.length = N + k) :
    List.foldl (dequeAppend N) [] xs = xs.drop k ∧
    (List.foldl (dequeAppend N) [] xs).length = N ∧
    ∀ ys : List α, (List.foldl (dequeAppend N) [] ys).length ≤ N := by
  have h1 : List.foldl (dequeAppend N) [] xs = xs.drop k := by
    rw [foldl_dequeAppend N xs [] (by simp)]
    simp only [List.nil_append, List.length_nil, Nat.zero_add, hlen]
    congr 1
    omega
  refine ⟨h1, ?_, fun ys => foldl_dequeAppend_length_le N ys⟩
  rw [h1, List.length_drop, hlen]
  omega

/-- Witness for C2 at capacity 2 with 3 appends. -/
theorem c2_rolling_store_witness :
    List.foldl (dequeAppend 2) [] ([10, 20, 30] : List Nat) = List.drop 1 [10, 20, 30] ∧
    (List.foldl (dequeAppend 2) [] ([10, 20, 30] : List Nat)).length = 2 :=
  ⟨(c2_rolling_store 2 1 [10, 20, 30] (by decide) (by decide)).1,
   (c2_rolling_store 2 1 [10, 20, 30] (by decide) (by decide)).2.1⟩

/-- Transitivity of the timestamp comparison used by the sort. -/
theorem tsLE_trans : ∀ a b c : ℚ × ℚ,
    decide (a.1 ≤ b.1) = true → decide (b.1 ≤ c.1) = true →
    decide (a.1 ≤ c.1) = true := by
  intro a b c hab hbc
  simp only [decide_eq_true_eq] at *
  exact le_trans hab hbc

/-- Totality of the timestamp comparison used by the sort. -/
theorem tsLE_total : ∀ a b : ℚ × ℚ,
    (decide (a.1 ≤ b.1) || decide (b.1 ≤ a.1)) = true := by
  intro a b
  simpa using le_total a.1 b.1

/-- The sort-on-read orders points by timestamp ascending. -/
theorem sortByTs_sorted (dq : List (ℚ × ℚ)) :
    (sortByTs dq).Pairwise (fun a b => a.1 ≤ b.1) := by
  have h := List.sorted_mergeSort tsLE_trans tsLE_total dq
  exact h.imp (fun hab => of_decide_eq_true hab)

/-- The sort-on-read is a permutation of the snapshot. -/
theorem sortByTs_perm (dq : List (ℚ × ℚ)) : (sortByTs dq).Perm dq :=
  List.mergeSort_perm dq _

/-- Stability of the sort-on-read: for every timestamp value, the points
carrying it appear in the sorted output in their original arrival order. -/
theorem filter_sortByTs (dq : List (ℚ × ℚ)) (k : ℚ) :
    (sortByTs dq).filter (fun p => decide (p.1 = k)) =
      dq.filter (fun p => decide (p.1 = k)) := by
  set pred : ℚ × ℚ → Bool := fun p => decide (p.1 = k) with hpred
  have hc : (dq.filter pred).Pairwise (fun a b => decide (a.1 ≤ b.1) = true) := by
    apply List.pairwise_of_forall_mem_list
    intro a ha b hb
    have ha' : a.1 = k := by
      have := List.of_mem_filter ha
      simpa [hpred] using this
    have hb' : b.1 = k := by
      have := List.of_mem_filter hb
      simpa [hpred] using this
    simp [ha', hb']
  have hsub : List.Sublist (dq.filter pred) dq := List.filter_sublist dq
  have hstab : List.Sublist (dq.filter pred) (sortByTs dq) :=
    List.sublist_mergeSort tsLE_trans tsLE_total hc hsub
  have hsub2 : List.Sublist ((dq.filter pred).filter pred) ((sortByTs dq).filter pred) :=
    hstab.filter pred
  rw [List.filter_filter] at hsub2
  have hself : dq.filter (fun a => pred a && pred a) = dq.filter pred := by
    simp
  rw [hself] at hsub2
  have hperm : ((sortByTs dq).filter pred).Perm (dq.filter pred) :=
    (sortByTs_perm dq).filter pred
  exact (hsub2.eq_of_length hperm.length_eq.symm).symm

/-- C1: the series builder sorts the snapshot by timestamp ascending with a
stable sort (ties keep arrival order), returns an empty series for an empty
snapshot, emits 0.0 everywhere when the earliest price is 0, otherwise
emits (price / P0 - 1) * 100 per point in order, and on the snapshot
[(t0, 1.0), (t1, 1.01), (t2, 0.99)] with t0 < t1 < t2 yields the
percentages [0.0, 1.0, -1.0]. -/
theorem c1_series_builder :
    buildSeries [] = [] ∧
    (∀ dq : List (ℚ × ℚ), (buildSeries dq).Pairwise (fun a b => a.1 ≤ b.1)) ∧
    (∀ (dq : List (ℚ × ℚ)) (k : ℚ),
      (sortByTs dq).filter (fun p => decide (p.1 = k)) =
        dq.filter (fun p => decide (p.1 = k))) ∧
    (∀ dq : List (ℚ × ℚ), dq ≠ [] →
      ((sortByTs dq).head?.map Prod.snd).getD 0 = 0 →
      buildSeries dq = (sortByTs dq).map fun r => (r.1, 0)) ∧
    (∀ (dq : List (ℚ × ℚ)) (p0 : ℚ), dq ≠ [] →
      ((sortByTs dq).head?.map Prod.snd).getD 0 = p0 → p0 ≠ 0 →
      buildSeries dq = (sortByTs dq).map fun r => (r.1, (r.2 / p0 - 1) * 100)) ∧
    (∀ t0 t1 t2 : ℚ, t0 < t1 → t1 < t2 →
      buildSeries [(t0, 1), (t1, 101/100), (t2, 99/100)] =
        [(t0, 0), (t1, 1), (t2, -1)]) := by
  refine ⟨rfl, ?_, filter_sortByTs, ?_, ?_, ?_⟩
  · intro dq
    cases dq with
    | nil => simp [buildSeries]
    | cons a l =>
      have hsorted := sortByTs_sorted (a :: l)
      simp only [buildSeries, List.isEmpty_cons, Bool.false_eq_true, if_false]
      split
      · exact hsorted.map _ (fun x y h => by simpa using h)
      · exact hsorted.map _ (fun x y h => by simpa using h)
  · intro dq hne h0
    have hdq : dq.isEmpty = false := by
      cases dq with
      | nil => exact absurd rfl hne
      | cons a l => rfl
    simp only [buildSeries, hdq, Bool.false_eq_true, if_false]
    rw [if_pos h0]
  · intro dq p0 hne hp0 hp0ne
    have hdq : dq.isEmpty = false := by
      cases dq with
      | nil => exact absurd rfl hne
      | cons a l => rfl
    simp only [buildSeries, hdq, Bool.false_eq_true, if_false]
    rw [hp0, if_neg hp0ne]
  · intro t0 t1 t2 h01 h12
    have hsorted : List.Pairwise (fun a b : ℚ × ℚ => decide (a.1 ≤ b.1) = true)
        [(t0, (1 : ℚ)), (t1, 101/100), (t2, 99/100)] := by
      refine List.Pairwise.cons ?_ (List.Pairwise.cons ?_ (List.pairwise_singleton _ _))
      · intro b hb
        simp only [List.mem_cons, List.not_mem_nil, or_false] at hb
        rcases hb with rfl | rfl
        · simp only [decide_eq_true_eq]
          exact le_of_lt h01
        · simp only [decide_eq_true_eq]
          exact le_of_lt (h01.trans h12)
      · intro b hb
        simp only [List.mem_cons, List.not_mem_nil, or_false] at hb
        subst hb
        simp only [decide_eq_true_eq]
        exact le_of_lt h12
    have hid : sortByTs [(t0, (1 : ℚ)), (t1, 101/100), (t2, 99/100)] =
        [(t0, (1 : ℚ)), (t1, 101/100), (t2, 99/100)] :=
      List.mergeSort_of_sorted hsorted
    simp only [buildSeries, List.isEmpty_cons, Bool.false_eq_true, if_false, hid]
    norm_num

/-- Witness for C1 at the concrete snapshot with timestamps 1 < 2 < 3. -/
theorem c1_series_builder_witness :
    buildSeries [(1, 1), (2, 101/100), (3, 99/100)] = [(1, 0), (2, 1), (3, -1)] :=
  c1_series_builder.2.2.2.2.2 1 2 3 (by norm_num) (by norm_num)

/-- Appending for a symbol never changes the key list of the store. -/
theorem storeAppend_keys (st : StoreT) (sym : String) (pt : PricePoint) :
    (storeAppend st sym pt).map Prod.fst = st.map Prod.fst := by
  induction st with
  | nil => rfl
  | cons p rest ih =>
    simp only [storeAppend, List.map_cons] at *
    rw [ih]
    congr 1
    split <;> rfl

/-- Appending for a symbol that is not a store key is a no-op. -/
theorem storeAppend_not_mem (st : StoreT) (sym : String) (pt : PricePoint)
    (h : sym ∉ st.map Prod.fst) : storeAppend st sym pt = st := by
  induction st with
  | nil => rfl
  | cons p rest ih =>
    simp only [List.map_cons, List.mem_cons, not_or] at h
    simp only [storeAppend, List.map_cons]
    rw [if_neg fun hc => h.1 hc.symm]
    have := ih h.2
    simp only [storeAppend] at this
    rw [this]

/-- Membership of a string in a modelled set distributes over union. -/
theorem memStr_append (x : String) (l1 l2 : List JVal) :
    memStr x (l1 ++ l2) = (memStr x l1 || memStr x l2) := by
  simp [memStr, List.any_append]

/-- A string is a member of the singleton set holding it. -/
theorem memStr_self_singleton (x : String) : memStr x [JVal.str x] = true := by
  simp [memStr]

/-- Shape of every successful event step: WS_ACTIVE and WS_FAILED only
grow, the last-poll stamp is untouched, and the store keys are unchanged. -/
theorem processEvent_ok (s : SysState) (obj : JVal) (now : ℚ) (s' : SysState)
    (h : processEvent s obj now = .ok s') :
    (∃ ea, s'.wsActive = s.wsActive ++ ea) ∧
    (∃ ef, s'.wsFailed = s.wsFailed ++ ef) ∧
    s'.lastPoll = s.lastPoll ∧
    s'.store.map Prod.fst = s.store.map Prod.fst := by
  cases obj with
  | obj kvs =>
    by_cases hstat : isSubscribeStatus kvs = true
    · simp only [processEvent, hstat, if_true] at h
      cases hsucc : ackSymbols kvs "success" with
      | error e => rw [hsucc] at h; exact absurd h (by simp [Bind.bind, Except.bind])
      | ok succ =>
        cases hfail : ackSymbols kvs "fails" with
        | error e =>
          rw [hsucc, hfail] at h
          exact absurd h (by simp [Bind.bind, Except.bind])
        | ok fail =>
          rw [hsucc, hfail] at h
          simp only [Bind.bind, Except.bind, Except.ok.injEq] at h
          subst h
          exact ⟨⟨succ, rfl⟩, ⟨fail, rfl⟩, rfl, rfl⟩
    · simp only [processEvent, hstat, if_false, Bool.false_eq_true] at h
      cases hp : parse_price_message (.obj kvs) now with
      | error e => rw [hp] at h; exact absurd h (by simp [Bind.bind, Except.bind])
      | ok parsed =>
        rw [hp] at h
        simp only [Bind.bind, Except.bind] at h
        cases parsed with
        | none =>
          simp only [Except.ok.injEq] at h
          subst h
          exact ⟨⟨[], by simp⟩, ⟨[], by simp⟩, rfl, rfl⟩
        | some trip =>
          obtain ⟨symv, price, ts⟩ := trip
          cases symv with
          | str sym =>
            by_cases hmem : (List.lookup sym s.store).isSome = true
            · simp only [hmem, if_true, Except.ok.injEq] at h
              subst h
              exact ⟨⟨[JVal.str sym], rfl⟩, ⟨[], by simp⟩, rfl, storeAppend_keys _ _ _⟩
            · simp only [hmem, if_false, Bool.false_eq_true, Except.ok.injEq] at h
              subst h
              exact ⟨⟨[], by simp⟩, ⟨[], by simp⟩, rfl, rfl⟩
          | num f =>
            simp only [Except.ok.injEq] at h
            subst h
            exact ⟨⟨[], by simp⟩, ⟨[], by simp⟩, rfl, rfl⟩
          | bool b =>
            simp only [Except.ok.injEq] at h
            subst h
            exact ⟨⟨[], by simp⟩, ⟨[], by simp⟩, rfl, rfl⟩
          | null =>
            simp only [Except.ok.injEq] at h
            subst h
            exact ⟨⟨[], by simp⟩, ⟨[], by simp⟩, rfl, rfl⟩
          | arr xs =>
            simp only [Except.ok.injEq] at h
            subst h
            exact ⟨⟨[], by simp⟩, ⟨[], by simp⟩, rfl, rfl⟩
          | obj kvs2 =>
            simp only [Except.ok.injEq] at h
            subst h
            exact ⟨⟨[], by simp⟩, ⟨[], by simp⟩, rfl, rfl⟩
  | num f => exact absurd h (by simp [processEvent])
  | str t => exact absurd h (by simp [processEvent])
  | bool b => exact absurd h (by simp [processEvent])
  | null => exact absurd h (by simp [processEvent])
  | arr xs => exact absurd h (by simp [processEvent])

/-- Batch processing keeps every WS_FAILED member. -/
theorem processBatch_wsFailed_mono (x : String) :
    ∀ (batch : List JVal) (s : SysState) (now : ℚ),
      memStr x s.wsFailed = true → memStr x (processBatch s batch now).1.wsFailed = true := by
  intro batch
  induction batch with
  | nil => intro s now h; exact h
  | cons obj rest ih =>
    intro s now h
    cases hpe : processEvent s obj now with
    | error e =>
      simp only [processBatch, hpe]
      exact h
    | ok s' =>
      simp only [processBatch, hpe]
      apply ih
      obtain ⟨ef, hef⟩ := (processEvent_ok s obj now s' hpe).2.1
      rw [hef, memStr_append, h, Bool.true_or]

/-- Batch processing keeps every WS_ACTIVE member. -/
theorem processBatch_wsActive_mono (x : String) :
    ∀ (batch : List JVal) (s : SysState) (now : ℚ),
      memStr x s.wsActive = true → memStr x (processBatch s batch now).1.wsActive = true := by
  intro batch
  induction batch with
  | nil => intro s now h; exact h
  | cons obj rest ih =>
    intro s now h
    cases hpe : processEvent s obj now with
    | error e =>
      simp only [processBatch, hpe]
      exact h
    | ok s' =>
      simp only [processBatch, hpe]
      apply ih
      obtain ⟨ea, hea⟩ := (processEvent_ok s obj now s' hpe).1
      rw [hea, memStr_append, h, Bool.true_or]

/-- Batch processing keeps the store keys. -/
theorem processBatch_keys :
    ∀ (batch : List JVal) (s : SysState) (now : ℚ),
      (processBatch s batch now).1.store.map Prod.fst = s.store.map Prod.fst := by
  intro batch
  induction batch with
  | nil => intro s now; rfl
  | cons obj rest ih =>
    intro s now
    cases hpe : processEvent s obj now with
    | error e => simp only [processBatch, hpe]
    | ok s' =>
      simp only [processBatch, hpe]
      rw [ih s' now, (processEvent_ok s obj now s' hpe).2.2.2]

/-- The inbound handler keeps every WS_FAILED member. -/
theorem on_message_wsFailed_mono (s : SysState) (msg : Option JVal) (now : ℚ) (x : String)
    (h : memStr x s.wsFailed = true) : memStr x (on_message s msg now).wsFailed = true := by
  cases msg with
  | none => exact h
  | some data => exact processBatch_wsFailed_mono x (batchOf data) s now h

/-- The inbound handler keeps every WS_ACTIVE member. -/
theorem on_message_wsActive_mono (s : SysState) (msg : Option JVal) (now : ℚ) (x : String)
    (h : memStr x s.wsActive = true) : memStr x (on_message s msg now).wsActive = true := by
  cases msg with
  | none => exact h
  | some data => exact processBatch_wsActive_mono x (batchOf data) s now h

/-- The inbound handler keeps the store keys. -/
theorem on_message_keys (s : SysState) (msg : Option JVal) (now : ℚ) :
    (on_message s msg now).store.map Prod.fst = s.store.map Prod.fst := by
  cases msg with
  | none => rfl
  | some data => exact processBatch_keys (batchOf data) s now

/-- A payload holding a single non-list event is processed as that event. -/
theorem on_message_single (s : SysState) (obj : JVal) (s' : SysState) (now : ℚ)
    (hnotarr : batchOf obj = [obj]) (h : processEvent s obj now = .ok s') :
    on_message s (some obj) now = s' := by
  simp only [on_message, hnotarr, processBatch, h]

/-- Effect of a well-formed price tick for a stored symbol: the point is
appended (with the receipt time, no timestamp field being present) and the
symbol is defensively added to WS_ACTIVE; WS_FAILED is untouched. -/
theorem processEvent_tick (s : SysState) (sym : String) (p : ℚ) (now : ℚ)
    (hsym : sym ≠ "") (hmem : (List.lookup sym s.store).isSome = true) :
    processEvent s (tickObj sym p) now =
      .ok { s with store := storeAppend s.store sym (.fin now, .fin p),
                   wsActive := s.wsActive ++ [.str sym] } := by
  have hbeq : (sym == "") = false := by
    simp [hsym]
  have h1 : List.lookup "event" [("symbol", JVal.str sym), ("price", JVal.num (.fin p))] =
      none := rfl
  have h2 : List.lookup "symbol" [("symbol", JVal.str sym), ("price", JVal.num (.fin p))] =
      some (JVal.str sym) := rfl
  have h3 : List.lookup "price" [("symbol", JVal.str sym), ("price", JVal.num (.fin p))] =
      some (JVal.num (.fin p)) := rfl
  have h4 : List.lookup "last" [("symbol", JVal.str sym), ("price", JVal.num (.fin p))] =
      none := rfl
  have h5 : List.lookup "timestamp" [("symbol", JVal.str sym), ("price", JVal.num (.fin p))] =
      none := rfl
  simp only [processEvent, tickObj, isSubscribeStatus, parse_price_message, eventFieldOk,
    extract_price, candidatePriceKeys, tryPriceKey, extract_ts, pyFloatOf, JVal.truthy,
    h1, h2, h3, h5, hbeq, Bool.not_false, Bool.not_true, if_true, List.findSome?,
    Bind.bind, Except.bind, hmem, Bool.false_eq_true, if_false]

/-- The rejected branch of a chart frame never touches WS_FAILED. -/
theorem chartRejectedBranch_wsFailed (s : SysState) (key : Option String)
    (rTd rEx : Option JVal) (now : ℚ) :
    (chartRejectedBranch s key rTd rEx now).1.wsFailed = s.wsFailed := by
  simp only [chartRejectedBranch]
  split <;> rfl

/-- The rejected branch of a chart frame never touches WS_ACTIVE. -/
theorem chartRejectedBranch_wsActive (s : SysState) (key : Option String)
    (rTd rEx : Option JVal) (now : ℚ) :
    (chartRejectedBranch s key rTd rEx now).1.wsActive = s.wsActive := by
  simp only [chartRejectedBranch]
  split <;> rfl

/-- The cold-start branch of a chart frame never touches WS_FAILED. -/
theorem chartColdStartBranch_wsFailed (s : SysState) (key : Option String)
    (rTd rEx : Option JVal) (now : ℚ) :
    (chartColdStartBranch s key rTd rEx now).1.wsFailed = s.wsFailed := by
  simp only [chartColdStartBranch]
  split <;> rfl

/-- The cold-start branch of a chart frame never touches WS_ACTIVE. -/
theorem chartColdStartBranch_wsActive (s : SysState) (key : Option String)
    (rTd rEx : Option JVal) (now : ℚ) :
    (chartColdStartBranch s key rTd rEx now).1.wsActive = s.wsActive := by
  simp only [chartColdStartBranch]
  split <;> rfl

/-- A chart frame never touches WS_FAILED. -/
theorem update_chart_wsFailed (s : SysState) (key : Option String)
    (r1 e1 r2 e2 : Option JVal) (now : ℚ) :
    (update_chart s key r1 e1 r2 e2 now).1.wsFailed = s.wsFailed := by
  unfold update_chart
  rw [chartColdStartBranch_wsFailed, chartRejectedBranch_wsFailed]

/-- A chart frame never touches WS_ACTIVE. -/
theorem update_chart_wsActive (s : SysState) (key : Option String)
    (r1 e1 r2 e2 : Option JVal) (now : ℚ) :
    (update_chart s key r1 e1 r2 e2 now).1.wsActive = s.wsActive := by
  unfold update_chart
  rw [chartColdStartBranch_wsActive, chartRejectedBranch_wsActive]

/-- C9: the inbound handler never raises to its caller: it is a total
function of the payload; a payload whose JSON parse fails leaves the state
unchanged; an event that is not a status acknowledgement and parses to
nothing is discarded with the state unchanged; an event whose processing
raises stops the current batch with the state accumulated so far, the
exception being caught by the handler's except clause so the ingestion
loop continues with the next message. -/
theorem c9_handler_never_fatal :
    (∀ (s : SysState) (now : ℚ), on_message s none now = s) ∧
    (∀ (s : SysState) (now : ℚ) (kvs : List (String × JVal)),
      isSubscribeStatus kvs = false →
      parse_price_message (.obj kvs) now = .ok none →
      processEvent s (.obj kvs) now = .ok s) ∧
    (∀ (s : SysState) (now : ℚ) (obj : JVal) (rest : List JVal),
      processEvent s obj now = .error () →
      processBatch s (obj :: rest) now = (s, true)) ∧
    (∀ (s : SysState) (msg : Option JVal) (now : ℚ),
      ∃ s' : SysState, on_message s msg now = s') := by
  refine ⟨fun s now => rfl, ?_, ?_, fun s msg now => ⟨_, rfl⟩⟩
  · intro s now kvs hstat hparse
    simp only [processEvent, hstat, Bool.false_eq_true, if_false, hparse,
      Bind.bind, Except.bind]
  · intro s now obj rest herr
    simp only [processBatch, herr]

/-- Witness for C9: the unparsable payload and a single junk event leave
the initial state unchanged. -/
theorem c9_handler_never_fatal_witness :
    on_message initState none 0 = initState ∧
    processEvent initState (.obj [("foo", JVal.null)]) 0 = .ok initState :=
  ⟨c9_handler_never_fatal.1 initState 0,
   c9_handler_never_fatal.2.1 initState 0 [("foo", JVal.null)] rfl rfl⟩

/-- C5 counterexample: after an acknowledgement accepting AAPL and a later
one rejecting it, the reachable state holds AAPL in both the Accepted and
the Rejected set, and AAPL is selected for fallback polling (treated as
rejected) despite being Accepted — refuting both the monotonic-transition
reading and the never-both invariant of the claim. -/
theorem c5_counterexample :
    memStr "AAPL" (on_message (on_message initState (some (ackObj "success" "AAPL")) 0)
      (some (ackObj "fails" "AAPL")) 1).wsActive = true ∧
    memStr "AAPL" (on_message (on_message initState (some (ackObj "success" "AAPL")) 0)
      (some (ackObj "fails" "AAPL")) 1).wsFailed = true ∧
    rejectedSet (on_message (on_message initState (some (ackObj "success" "AAPL")) 0)
      (some (ackObj "fails" "AAPL")) 1) = ["AAPL"] ∧
    Reachable (on_message (on_message initState (some (ackObj "success" "AAPL")) 0)
      (some (ackObj "fails" "AAPL")) 1) := by
  have hfilter : SYMBOLS.filter (fun sym =>
      memStr sym (on_message (on_message initState (some (ackObj "success" "AAPL")) 0)
        (some (ackObj "fails" "AAPL")) 1).wsFailed) = ["AAPL"] := by decide
  refine ⟨by decide, by decide, by simp [rejectedSet, hfilter],
    Reachable.msg _ _ (Reachable.msg _ _ Reachable.init)⟩

/-- C5 (amended): acknowledgement handling only ever adds, independently:
the success set is unioned into Accepted and the fails set into Rejected;
both sets are monotone under every inbound message, so once Accepted a
symbol stays Accepted and once Rejected it stays Rejected; nothing removes
a symbol from either set, and a later acknowledgement rejecting an
already-Accepted symbol does place it in Rejected. -/
theorem c5_amended :
    (∀ (s : SysState) (kvs : List (String × JVal)) (now : ℚ) (succ fail : List JVal),
      isSubscribeStatus kvs = true →
      ackSymbols kvs "success" = .ok succ →
      ackSymbols kvs "fails" = .ok fail →
      processEvent s (.obj kvs) now =
        .ok { s with wsActive := s.wsActive ++ succ, wsFailed := s.wsFailed ++ fail }) ∧
    (∀ (s : SysState) (msg : Option JVal) (now : ℚ) (x : String),
      memStr x s.wsActive = true → memStr x (on_message s msg now).wsActive = true) ∧
    (∀ (s : SysState) (msg : Option JVal) (now : ℚ) (x : String),
      memStr x s.wsFailed = true → memStr x (on_message s msg now).wsFailed = true) := by
  refine ⟨?_, on_message_wsActive_mono, on_message_wsFailed_mono⟩
  intro s kvs now succ fail hstat hsucc hfail
  simp only [processEvent, hstat, if_true, hsucc, hfail, Bind.bind, Except.bind]

/-- Witness for C5 (amended) at a concrete acknowledgement rejecting AAPL
from the initial state. -/
theorem c5_amended_witness :
    processEvent initState (.obj [("event", JVal.str "subscribe-status"),
        ("fails", JVal.arr [JVal.obj [("symbol", JVal.str "AAPL")]])]) 0 =
      .ok { initState with wsActive := initState.wsActive ++ [],
                           wsFailed := initState.wsFailed ++ [JVal.str "AAPL"] } :=
  c5_amended.1 initState [("event", JVal.str "subscribe-status"),
    ("fails", JVal.arr [JVal.obj [("symbol", JVal.str "AAPL")]])] 0 [] [JVal.str "AAPL"]
    rfl rfl rfl

/-- The state with AAPL WS-rejected and nothing else recorded. -/
def c4state : SysState :=
  { store := initStore, wsActive := [], wsFailed := [JVal.str "AAPL"], lastPoll := none }

/-- C4 counterexample: AAPL is WS-rejected and hence in the fallback
selection; a price tick for AAPL is processed (and defensively marks it
Accepted), yet AAPL is still selected for fallback polling afterwards, so
processing a tick does not make the symbol leave the selection set. -/
theorem c4_counterexample :
    rejectedSet c4state = ["AAPL"] ∧
    memStr "AAPL" (on_message c4state (some (tickObj "AAPL" 101)) 5).wsActive = true ∧
    rejectedSet (on_message c4state (some (tickObj "AAPL" 101)) 5) = ["AAPL"] := by
  have hf1 : SYMBOLS.filter (fun sym => memStr sym c4state.wsFailed) = ["AAPL"] := by decide
  have hf2 : SYMBOLS.filter (fun sym =>
      memStr sym (on_message c4state (some (tickObj "AAPL" 101)) 5).wsFailed) = ["AAPL"] := by
    decide
  exact ⟨by simp [rejectedSet, hf1], by decide, by simp [rejectedSet, hf2]⟩

/-- C4 (amended): a processed price tick for a stored symbol appends the
point and defensively marks the symbol Accepted, but leaves the Rejected
set — and with it the fallback selection — unchanged; moreover no inbound
message ever removes a symbol from WS_FAILED, and a chart frame never
changes WS_FAILED at all, so no symbol ever leaves the selection set
(becoming Accepted included). -/
theorem c4_amended :
    (∀ (s : SysState) (sym : String) (p now : ℚ), sym ≠ "" →
      (List.lookup sym s.store).isSome = true →
      rejectedSet (on_message s (some (tickObj sym p)) now) = rejectedSet s ∧
      memStr sym (on_message s (some (tickObj sym p)) now).wsActive = true) ∧
    (∀ (s : SysState) (msg : Option JVal) (now : ℚ) (x : String),
      memStr x s.wsFailed = true → memStr x (on_message s msg now).wsFailed = true) ∧
    (∀ (s : SysState) (key : Option String) (r1 e1 r2 e2 : Option JVal) (now : ℚ),
      (update_chart s key r1 e1 r2 e2 now).1.wsFailed = s.wsFailed) := by
  refine ⟨?_, on_message_wsFailed_mono, ?_⟩
  · intro s sym p now hsym hmem
    have hsingle : on_message s (some (tickObj sym p)) now =
        { s with store := storeAppend s.store sym (.fin now, .fin p),
                 wsActive := s.wsActive ++ [.str sym] } :=
      on_message_single s (tickObj sym p) _ now rfl (processEvent_tick s sym p now hsym hmem)
    rw [hsingle]
    constructor
    · simp [rejectedSet]
    · rw [memStr_append, memStr_self_singleton, Bool.or_true]
  · intro s key r1 e1 r2 e2 now
    exact update_chart_wsFailed s key r1 e1 r2 e2 now

/-- Witness for C4 (amended) at a tick for EUR/USD from the initial state. -/
theorem c4_amended_witness :
    rejectedSet (on_message initState (some (tickObj "EUR/USD" 1)) 0) =
      rejectedSet initState ∧
    memStr "EUR/USD" (on_message initState (some (tickObj "EUR/USD" 1)) 0).wsActive = true :=
  c4_amended.1 initState "EUR/USD" 1 0 (by decide) (by decide)

/-- C8 counterexample object: the price field holds NaN, the last field a
finite 2.0. -/
def c8obj : List (String × JVal) := [("price", .num .nan), ("last", .num (.fin 2))]

/-- C8 counterexample: on an event whose price field is NaN and whose last
field is 2.0, the extraction of the source takes NaN from the price field
(float accepts non-finite values), while the rule as claimed — first
candidate parsing as a finite number — would take 2.0 from the last field. -/
theorem c8_price_extraction_counterexample :
    extract_price c8obj = some PyFloat.nan ∧
    claimedExtractPrice c8obj = some (PyFloat.fin 2) := by
  exact ⟨by decide, by decide⟩

/-- C8 (amended): extraction tries price, last, close, bid in that fixed
order and takes the value of the first candidate that is present and
converts under float, finite or not (NaN and infinities are accepted);
if no candidate converts, extraction yields nothing and the parser
discards the event. -/
theorem c8_price_extraction_amended :
    (∀ (kvs : List (String × JVal)) (f : PyFloat),
      tryPriceKey kvs "price" = some f → extract_price kvs = some f) ∧
    (∀ (kvs : List (String × JVal)) (f : PyFloat),
      tryPriceKey kvs "price" = none → tryPriceKey kvs "last" = some f →
      extract_price kvs = some f) ∧
    (∀ (kvs : List (String × JVal)) (f : PyFloat),
      tryPriceKey kvs "price" = none → tryPriceKey kvs "last" = none →
      tryPriceKey kvs "close" = some f → extract_price kvs = some f) ∧
    (∀ (kvs : List (String × JVal)) (f : PyFloat),
      tryPriceKey kvs "price" = none → tryPriceKey kvs "last" = none →
      tryPriceKey kvs "close" = none → tryPriceKey kvs "bid" = some f →
      extract_price kvs = some f) ∧
    (∀ kvs : List (String × JVal),
      (∀ k ∈ candidatePriceKeys, tryPriceKey kvs k = none) →
      extract_price kvs = none) ∧
    (∀ kvs : List (String × JVal), List.lookup "price" kvs = some (.num .nan) →
      extract_price kvs = some PyFloat.nan) ∧
    (∀ (kvs : List (String × JVal)) (now : ℚ) (symv : JVal),
      eventFieldOk kvs = true → List.lookup "symbol" kvs = some symv →
      symv.truthy = true → extract_price kvs = none →
      parse_price_message (.obj kvs) now = .ok none) := by
  refine ⟨?_, ?_, ?_, ?_, ?_, ?_, ?_⟩
  · intro kvs f h
    simp [extract_price, candidatePriceKeys, List.findSome?_cons, h]
  · intro kvs f h1 h2
    simp [extract_price, candidatePriceKeys, List.findSome?_cons, h1, h2]
  · intro kvs f h1 h2 h3
    simp [extract_price, candidatePriceKeys, List.findSome?_cons, h1, h2, h3]
  · intro kvs f h1 h2 h3 h4
    simp [extract_price, candidatePriceKeys, List.findSome?_cons, h1, h2, h3, h4]
  · intro kvs h
    have h1 := h "price" (by simp [candidatePriceKeys])
    have h2 := h "last" (by simp [candidatePriceKeys])
    have h3 := h "close" (by simp [candidatePriceKeys])
    have h4 := h "bid" (by simp [candidatePriceKeys])
    simp [extract_price, candidatePriceKeys, List.findSome?_cons, h1, h2, h3, h4]
  · intro kvs h
    have hp : tryPriceKey kvs "price" = some PyFloat.nan := by
      simp [tryPriceKey, h, pyFloatOf]
    simp [extract_price, candidatePriceKeys, List.findSome?_cons, hp]
  · intro kvs now symv hev hsym htr hex
    simp [parse_price_message, hev, hsym, htr, hex]

/-- Witness for C8 (amended): a concrete event whose price field holds a
finite 5.0 extracts exactly that value. -/
theorem c8_price_extraction_amended_witness :
    extract_price [("price", JVal.num (.fin 5))] = some (PyFloat.fin 5) :=
  c8_price_extraction_amended.1 [("price", JVal.num (.fin 5))] (PyFloat.fin 5) rfl

/-- Effect of the keyless poll when the response carries a finite nonzero
rate for EUR and EUR/USD is a store key: one point with price 1/rate is
appended for EUR/USD. -/
theorem poll_ex_apply_rate (st : StoreT) (rkvs : List (String × JVal)) (r : ℚ) (now : ℚ)
    (hr : r ≠ 0) (hlook : List.lookup "EUR" rkvs = some (.num (.fin r)))
    (hkey : (List.lookup "EUR/USD" st).isSome = true) :
    poll_exchangerate_host_eurusd_once st (some (.obj [("rates", .obj rkvs)])) now =
      (storeAppend st "EUR/USD" (.fin now, .fin r⁻¹), 1, [.ex]) := by
  have h1 : List.lookup "rates" [("rates", JVal.obj rkvs)] = some (JVal.obj rkvs) := rfl
  have hd1 : decide (r = 0) = false := by simp [hr]
  have hd2 : decide (r⁻¹ = 0) = false := by simp [inv_ne_zero hr]
  simp only [poll_exchangerate_host_eurusd_once, h1, Option.getD_some, hlook,
    Option.some_bind, pyFloatOf, PyFloat.truthy, PyFloat.pyInv, hd1, hd2,
    Bool.not_false, if_true, hkey]
  simp [hr, inv_ne_zero hr]

/-- Effect of the keyless poll when the rate for EUR is zero: the zero is
falsy, the derived price stays None, and nothing is appended. -/
theorem poll_ex_apply_zero (st : StoreT) (rkvs : List (String × JVal)) (now : ℚ)
    (hlook : List.lookup "EUR" rkvs = some (.num (.fin 0))) :
    poll_exchangerate_host_eurusd_once st (some (.obj [("rates", .obj rkvs)])) now =
      (st, 0, [.ex]) := by
  have h1 : List.lookup "rates" [("rates", JVal.obj rkvs)] = some (JVal.obj rkvs) := rfl
  simp only [poll_exchangerate_host_eurusd_once, h1, Option.getD_some, hlook,
    Option.some_bind, pyFloatOf, PyFloat.truthy, decide_not, decide_eq_true_eq]
  simp

/-- C7 counterexample: the rule as claimed derives price 0.9 for the pair
USD/EUR from the table with EUR equal to 0.9 pivoted on USD, but the
poller of the source derives a price only for the fixed pair EUR/USD:
after the poll the store holds the EUR/USD point 1/0.9 = 10/9 and has no
USD/EUR series at all (USD/EUR is not even a store key), so no price is
ever yielded for USD/EUR. -/
theorem c7_cross_rate_counterexample :
    claimedCrossRate [("EUR", 9/10)] "USD" "USD" "EUR" = some (9/10) ∧
    (poll_exchangerate_host_eurusd_once initStore
      (some (.obj [("rates", .obj [("EUR", JVal.num (.fin (9/10)))])])) 0).1 =
      storeAppend initStore "EUR/USD" (.fin 0, .fin (10/9)) ∧
    List.lookup "USD/EUR"
      (poll_exchangerate_host_eurusd_once initStore
        (some (.obj [("rates", .obj [("EUR", JVal.num (.fin (9/10)))])])) 0).1 = none := by
  have hlk : List.lookup "EUR" [("EUR", JVal.num (.fin ((9:ℚ)/10)))] =
      some (JVal.num (.fin (9/10))) := rfl
  have h2 := poll_ex_apply_rate initStore [("EUR", JVal.num (.fin (9/10)))] (9/10) 0
    (by norm_num) hlk (by decide)
  have hinv : ((9:ℚ)/10)⁻¹ = 10/9 := by norm_num
  refine ⟨?_, ?_, ?_⟩
  · have hlk2 : List.lookup "EUR" [("EUR", (9:ℚ)/10)] = some (9/10) := rfl
    simp [claimedCrossRate, hlk2]
  · rw [h2, hinv]
  · rw [h2]
    decide

/-- C7 (amended): the keyless fallback derives only the fixed pair EUR/USD
against the USD-pivoted table: when the response carries a finite nonzero
rate r for EUR and EUR/USD is a store key, exactly one point with price
1/r is appended for EUR/USD (for r = 0.9 this is 10/9, about 1.1111); a
zero rate, a missing rates object, or a failed request adds nothing and
raises nothing. -/
theorem c7_cross_rate_amended :
    (∀ (st : StoreT) (rkvs : List (String × JVal)) (r : ℚ) (now : ℚ), r ≠ 0 →
      List.lookup "EUR" rkvs = some (.num (.fin r)) →
      (List.lookup "EUR/USD" st).isSome = true →
      poll_exchangerate_host_eurusd_once st (some (.obj [("rates", .obj rkvs)])) now =
        (storeAppend st "EUR/USD" (.fin now, .fin r⁻¹), 1, [.ex])) ∧
    (∀ (st : StoreT) (rkvs : List (String × JVal)) (now : ℚ),
      List.lookup "EUR" rkvs = some (.num (.fin 0)) →
      poll_exchangerate_host_eurusd_once st (some (.obj [("rates", .obj rkvs)])) now =
        (st, 0, [.ex])) ∧
    (∀ (st : StoreT) (kvs : List (String × JVal)) (now : ℚ),
      List.lookup "rates" kvs = none →
      poll_exchangerate_host_eurusd_once st (some (.obj kvs)) now = (st, 0, [.ex])) ∧
    (∀ (st : StoreT) (now : ℚ),
      poll_exchangerate_host_eurusd_once st none now = (st, 0, [.ex])) := by
  refine ⟨poll_ex_apply_rate, poll_ex_apply_zero, ?_, fun st now => rfl⟩
  intro st kvs now hlook
  simp only [poll_exchangerate_host_eurusd_once, hlook, Option.getD_none]
  rfl

/-- Witness for C7 (amended): the concrete rate 0.9 appends the EUR/USD
price 10/9 to the initial store. -/
theorem c7_cross_rate_amended_witness :
    poll_exchangerate_host_eurusd_once initStore
        (some (.obj [("rates", .obj [("EUR", JVal.num (.fin (1/2)))])])) 3 =
      (storeAppend initStore "EUR/USD" (.fin 3, .fin (1/2)⁻¹), 1, [.ex]) :=
  c7_cross_rate_amended.1 initStore [("EUR", JVal.num (.fin (1/2)))] (1/2) 3
    (by norm_num) rfl (by decide)

/-- Without an API key the Twelve Data poll returns before any request. -/
theorem poll_td_nokey (st : StoreT) (symbols : List String) (resp : Option JVal) (now : ℚ) :
    poll_twelvedata_price_once st none symbols resp now = (st, 0, []) := by
  simp [poll_twelvedata_price_once]

/-- With a key and a nonempty symbol list, the Twelve Data poll performs
exactly one batched request for those symbols, whatever the response. -/
theorem poll_td_fetches_some (st : StoreT) (key : String) (symbols : List String)
    (resp : Option JVal) (now : ℚ) (hne : symbols ≠ []) :
    (poll_twelvedata_price_once st (some key) symbols resp now).2.2 = [Fetch.td symbols] := by
  have hemp : symbols.isEmpty = false := by
    cases symbols with
    | nil => exact absurd rfl hne
    | cons a l => rfl
  have hcond : ((some key : Option String).isNone || symbols.isEmpty) = false := by
    simp [hemp]
  simp only [poll_twelvedata_price_once, hcond, Bool.false_eq_true, if_false]
  cases resp with
  | none => rfl
  | some payload =>
    cases payload <;> try rfl
    case obj kvs =>
      dsimp only
      split
      · split
        · split <;> rfl
        · rfl
      · rfl

/-- The Twelve Data poll performs at most one request. -/
theorem poll_td_fetches_len_le (st : StoreT) (key : Option String) (symbols : List String)
    (resp : Option JVal) (now : ℚ) :
    (poll_twelvedata_price_once st key symbols resp now).2.2.length ≤ 1 := by
  cases key with
  | none => simp [poll_td_nokey]
  | some k =>
    by_cases hne : symbols = []
    · subst hne
      simp [poll_twelvedata_price_once]
    · rw [poll_td_fetches_some st k symbols resp now hne]
      exact le_refl 1

/-- The exchangerate.host poll performs exactly one request. -/
theorem poll_ex_fetches (st : StoreT) (resp : Option JVal) (now : ℚ) :
    (poll_exchangerate_host_eurusd_once st resp now).2.2 = [Fetch.ex] := by
  unfold poll_exchangerate_host_eurusd_once
  cases resp with
  | none => rfl
  | some j =>
    cases j <;> try rfl
    case obj kvs =>
      dsimp only
      split <;> try rfl
      split <;> try rfl
      split <;> try rfl
      split <;> try rfl
      split <;> rfl

/-- Fired or not, the rejected branch either stamps the last-poll time or
does nothing. -/
theorem chartRejectedBranch_lastPoll_or (s : SysState) (key : Option String)
    (rTd rEx : Option JVal) (now : ℚ) :
    (chartRejectedBranch s key rTd rEx now).1.lastPoll = some now ∨
    chartRejectedBranch s key rTd rEx now = (s, []) := by
  simp only [chartRejectedBranch]
  split
  · left; rfl
  · right; rfl

/-- Fired or not, the cold-start branch either stamps the last-poll time
or does nothing. -/
theorem chartColdStartBranch_lastPoll_or (s : SysState) (key : Option String)
    (rTd rEx : Option JVal) (now : ℚ) :
    (chartColdStartBranch s key rTd rEx now).1.lastPoll = some now ∨
    chartColdStartBranch s key rTd rEx now = (s, []) := by
  simp only [chartColdStartBranch]
  split
  · left; rfl
  · right; rfl

/-- When the rate limit forbids polling, the rejected branch is a no-op. -/
theorem chartRejectedBranch_noDue (s : SysState) (key : Option String)
    (rTd rEx : Option JVal) (now : ℚ) (h : pollDue s.lastPoll now = false) :
    chartRejectedBranch s key rTd rEx now = (s, []) := by
  simp [chartRejectedBranch, h]

/-- When the rate limit forbids polling, the cold-start branch is a no-op. -/
theorem chartColdStartBranch_noDue (s : SysState) (key : Option String)
    (rTd rEx : Option JVal) (now : ℚ) (h : pollDue s.lastPoll now = false) :
    chartColdStartBranch s key rTd rEx now = (s, []) := by
  simp [chartColdStartBranch, h]

/-- With no rejected symbol, the rejected branch is a no-op. -/
theorem chartRejectedBranch_noRejected (s : SysState) (key : Option String)
    (rTd rEx : Option JVal) (now : ℚ) (h : rejectedSet s = []) :
    chartRejectedBranch s key rTd rEx now = (s, []) := by
  simp [chartRejectedBranch, h]

/-- With any nonempty buffer, the cold-start branch is a no-op. -/
theorem chartColdStartBranch_notEmpty (s : SysState) (key : Option String)
    (rTd rEx : Option JVal) (now : ℚ) (h : allBuffersEmpty s.store = false) :
    chartColdStartBranch s key rTd rEx now = (s, []) := by
  simp [chartColdStartBranch, h]

/-- A frame that just stamped the last-poll time is still rate-limited at
that same time. -/
theorem pollDue_same (now : ℚ) : pollDue (some now) now = false := by
  simp only [pollDue, sub_self, decide_eq_false_iff_not, not_le, FALLBACK_POLL_SECONDS]
  norm_num

/-- A due rejected branch with an API key issues exactly the batched
request for the rejected symbols and stamps the last-poll time. -/
theorem chartRejectedBranch_fire_key (s : SysState) (key : String)
    (rTd rEx : Option JVal) (now : ℚ)
    (hdue : pollDue s.lastPoll now = true) (hne : rejectedSet s ≠ []) :
    chartRejectedBranch s (some key) rTd rEx now =
      ({ s with
          store := (poll_twelvedata_price_once s.store (some key) (rejectedSet s) rTd now).1,
          lastPoll := some now },
        [Fetch.td (rejectedSet s)]) := by
  have hemp : (rejectedSet s).isEmpty = false := by
    cases h : rejectedSet s with
    | nil => exact absurd h hne
    | cons a l => rfl
  simp only [chartRejectedBranch, hemp, hdue, Bool.not_false, Bool.and_self, if_true,
    Option.isNone_some, Bool.and_false, Bool.false_and, Bool.and_true, Bool.false_eq_true,
    if_false, List.append_nil]
  rw [poll_td_fetches_some s.store key (rejectedSet s) rTd now hne]

/-- A due cold start with an API key issues exactly the batched request
for all configured symbols and stamps the last-poll time. -/
theorem chartColdStartBranch_fire_key (s : SysState) (key : String)
    (rTd rEx : Option JVal) (now : ℚ)
    (hdue : pollDue s.lastPoll now = true) (hemp : allBuffersEmpty s.store = true) :
    chartColdStartBranch s (some key) rTd rEx now =
      ({ s with
          store := (poll_twelvedata_price_once s.store (some key) SYMBOLS rTd now).1,
          lastPoll := some now },
        [Fetch.td SYMBOLS]) := by
  simp only [chartColdStartBranch, hemp, hdue, Bool.and_self, if_true,
    Option.isNone_some, Bool.false_eq_true, if_false, List.append_nil]
  rw [poll_td_fetches_some s.store key SYMBOLS rTd now (by decide)]

/-- The rejected branch performs at most one request per frame. -/
theorem chartRejectedBranch_fetches_le (s : SysState) (key : Option String)
    (rTd rEx : Option JVal) (now : ℚ) :
    (chartRejectedBranch s key rTd rEx now).2.length ≤ 1 := by
  simp only [chartRejectedBranch]
  split
  · cases key with
    | none =>
      simp only [poll_td_nokey]
      split
      · simp [poll_ex_fetches]
      · simp
    | some k =>
      simp only [Option.isNone_some, Bool.and_false, Bool.false_and, Bool.and_true,
        Bool.false_eq_true, if_false, List.append_nil]
      exact poll_td_fetches_len_le _ _ _ _ _
  · simp

/-- The cold-start branch performs at most one request per frame. -/
theorem chartColdStartBranch_fetches_le (s : SysState) (key : Option String)
    (rTd rEx : Option JVal) (now : ℚ) :
    (chartColdStartBranch s key rTd rEx now).2.length ≤ 1 := by
  simp only [chartColdStartBranch]
  split
  · cases key with
    | none =>
      simp only [poll_td_nokey]
      simp [poll_ex_fetches]
    | some k =>
      simp only [Option.isNone_some, Bool.false_eq_true, if_false, List.append_nil]
      exact poll_td_fetches_len_le _ _ _ _ _
  · simp

/-- A whole chart frame performs at most one request. -/
theorem update_chart_fetches_le (s : SysState) (key : Option String)
    (r1 e1 r2 e2 : Option JVal) (now : ℚ) :
    (update_chart s key r1 e1 r2 e2 now).2.length ≤ 1 := by
  simp only [update_chart]
  rcases chartRejectedBranch_lastPoll_or s key r1 e1 now with h1 | h1
  · rw [chartColdStartBranch_noDue (chartRejectedBranch s key r1 e1 now).1 key r2 e2 now
      (by rw [h1]; exact pollDue_same now)]
    simpa using chartRejectedBranch_fetches_le s key r1 e1 now
  · rw [h1]
    simpa using chartColdStartBranch_fetches_le s key r2 e2 now

/-- A chart frame either stamps the last-poll time or does nothing. -/
theorem update_chart_lastPoll_or (s : SysState) (key : Option String)
    (r1 e1 r2 e2 : Option JVal) (now : ℚ) :
    (update_chart s key r1 e1 r2 e2 now).1.lastPoll = some now ∨
    update_chart s key r1 e1 r2 e2 now = (s, []) := by
  simp only [update_chart]
  rcases chartColdStartBranch_lastPoll_or (chartRejectedBranch s key r1 e1 now).1
      key r2 e2 now with h2 | h2
  · left; exact h2
  · rw [h2]
    rcases chartRejectedBranch_lastPoll_or s key r1 e1 now with h1 | h1
    · left; exact h1
    · right
      rw [h1]
      rfl

/-- A rate-limited chart frame performs no request and changes nothing. -/
theorem update_chart_blocked (s : SysState) (key : Option String)
    (r1 e1 r2 e2 : Option JVal) (now : ℚ) (h : pollDue s.lastPoll now = false) :
    update_chart s key r1 e1 r2 e2 now = (s, []) := by
  simp only [update_chart, chartRejectedBranch_noDue s key r1 e1 now h]
  rw [chartColdStartBranch_noDue s key r2 e2 now h]
  rfl

/-- C6: two chart frames whose time readings are less than
FALLBACK_POLL_SECONDS apart perform at most one network fetch in total,
across all symbols and both fallback strategies: the rate limit is a
single global stamp. -/
theorem c6_rate_limit (s : SysState) (k1 k2 : Option String)
    (r1 e1 r2 e2 r1' e1' r2' e2' : Option JVal) (now1 now2 : ℚ)
    (h : now2 - now1 < FALLBACK_POLL_SECONDS) :
    (update_chart s k1 r1 e1 r2 e2 now1).2.length
      + (update_chart (update_chart s k1 r1 e1 r2 e2 now1).1
          k2 r1' e1' r2' e2' now2).2.length ≤ 1 := by
  rcases update_chart_lastPoll_or s k1 r1 e1 r2 e2 now1 with h1 | h1
  · have hdue : pollDue (update_chart s k1 r1 e1 r2 e2 now1).1.lastPoll now2 = false := by
      rw [h1]
      simp only [pollDue, decide_eq_false_iff_not, not_le]
      exact h
    rw [update_chart_blocked _ k2 r1' e1' r2' e2' now2 hdue]
    simpa using update_chart_fetches_le s k1 r1 e1 r2 e2 now1
  · rw [h1]
    simpa using update_chart_fetches_le s k2 r1' e1' r2' e2' now2

/-- Witness for C6 at two frames one second apart from the initial state. -/
theorem c6_rate_limit_witness :
    (update_chart initState none none none none none 0).2.length
      + (update_chart (update_chart initState none none none none none 0).1
          none none none none none 1).2.length ≤ 1 :=
  c6_rate_limit initState none none none none none none none none none none 0 1
    (by norm_num [FALLBACK_POLL_SECONDS])

/-- The state with no acknowledgement recorded, an empty EUR/USD buffer
and a nonempty AAPL buffer. -/
def c3state : SysState :=
  { store := [("EUR/USD", []), ("AAPL", [(.fin 1, .fin 1)]), ("BTC/USD", [])],
    wsActive := [], wsFailed := [], lastPoll := none }

/-- C3 counterexample: with no symbol rejected, nothing acknowledged, an
empty EUR/USD buffer and a nonempty AAPL buffer, the rule as claimed
selects EUR/USD and BTC/USD (never acknowledged, no data yet), yet a due
chart frame with an API key performs no fetch at all: the source polls
per-symbol only for WS-rejected symbols, and its cold-start seeding
requires every buffer to be empty. -/
theorem c3_fallback_selection_counterexample :
    claimedFallbackSet c3state = ["EUR/USD", "BTC/USD"] ∧
    pollDue c3state.lastPoll 100 = true ∧
    (update_chart c3state (some "k") none none none none 100).2 = [] := by
  have h1 : rejectedSet c3state = [] := by
    have h : SYMBOLS.filter (fun sym => memStr sym c3state.wsFailed) = [] := by decide
    simp [rejectedSet, h]
  have h2 : allBuffersEmpty c3state.store = false := by decide
  refine ⟨by decide, rfl, ?_⟩
  simp only [update_chart, chartRejectedBranch_noRejected c3state (some "k") none none 100 h1]
  rw [chartColdStartBranch_notEmpty c3state (some "k") none none 100 h2]
  rfl

/-- C3 (amended): a due frame with an API key polls exactly the configured
symbols currently in the Rejected set; when none is rejected and some
buffer is nonempty nothing is polled, even for configured symbols that
were never acknowledged and still have no data; only when every buffer is
empty does a cold-start seed poll all configured symbols, regardless of
acknowledgement state. -/
theorem c3_fallback_selection_amended :
    (∀ (s : SysState) (key : String) (r1 e1 r2 e2 : Option JVal) (now : ℚ),
      pollDue s.lastPoll now = true → rejectedSet s ≠ [] →
      (update_chart s (some key) r1 e1 r2 e2 now).2 = [Fetch.td (rejectedSet s)]) ∧
    (∀ (s : SysState) (key : Option String) (r1 e1 r2 e2 : Option JVal) (now : ℚ),
      rejectedSet s = [] → allBuffersEmpty s.store = false →
      (update_chart s key r1 e1 r2 e2 now).2 = []) ∧
    (∀ (s : SysState) (key : String) (r1 e1 r2 e2 : Option JVal) (now : ℚ),
      pollDue s.lastPoll now = true → rejectedSet s = [] → allBuffersEmpty s.store = true →
      (update_chart s (some key) r1 e1 r2 e2 now).2 = [Fetch.td SYMBOLS]) := by
  refine ⟨?_, ?_, ?_⟩
  · intro s key r1 e1 r2 e2 now hdue hne
    simp only [update_chart, chartRejectedBranch_fire_key s key r1 e1 now hdue hne]
    rw [chartColdStartBranch_noDue _ (some key) r2 e2 now (pollDue_same now)]
    rfl
  · intro s key r1 e1 r2 e2 now hrej hbuf
    simp only [update_chart, chartRejectedBranch_noRejected s key r1 e1 now hrej]
    rw [chartColdStartBranch_notEmpty s key r2 e2 now hbuf]
    rfl
  · intro s key r1 e1 r2 e2 now hdue hrej hbuf
    simp only [update_chart, chartRejectedBranch_noRejected s (some key) r1 e1 now hrej]
    rw [chartColdStartBranch_fire_key s key r2 e2 now hdue hbuf]
    rfl

/-- Witness for C3 (amended): the cold-start seed from the initial state
polls all configured symbols. -/
theorem c3_fallback_selection_amended_witness :
    (update_chart initState (some "k") none none none none 0).2 = [Fetch.td SYMBOLS] := by
  have hr : rejectedSet initState = [] := by
    have h : SYMBOLS.filter (fun sym => memStr sym initState.wsFailed) = [] := by decide
    simp [rejectedSet, h]
  exact c3_fallback_selection_amended.2.2 initState "k" none none none none 0 rfl hr (by decide)

/-- The multi-symbol response loop keeps the store keys: it only ever
appends into existing buffers. -/
theorem tdApplyMulti_keys (items : List (String × JVal)) (now : ℚ) :
    ∀ st : StoreT, (tdApplyMulti st items now).1.map Prod.fst = st.map Prod.fst := by
  induction items with
  | nil => intro st; rfl
  | cons it rest ih =>
    intro st
    simp only [tdApplyMulti]
    cases h : tdItemPrice it.2 with
    | none => exact ih st
    | some price =>
      cases hm : (List.lookup it.1 st).isSome with
      | true =>
        simp only [hm, if_true]
        exact (ih (storeAppend st it.1 (.fin now, price))).trans
          (storeAppend_keys st it.1 (.fin now, price))
      | false =>
        simp only [hm, Bool.false_eq_true, if_false]
        exact ih st

/-- The Twelve Data poll keeps the store keys. -/
theorem poll_td_keys (st : StoreT) (key : Option String) (symbols : List String)
    (resp : Option JVal) (now : ℚ) :
    (poll_twelvedata_price_once st key symbols resp now).1.map Prod.fst =
      st.map Prod.fst := by
  unfold poll_twelvedata_price_once
  split
  · rfl
  · cases resp with
    | none => rfl
    | some payload =>
      cases payload <;> try rfl
      case obj kvs =>
        dsimp only
        split
        · split
          · split
            · exact storeAppend_keys _ _ _
            · rfl
          · rfl
        · exact tdApplyMulti_keys kvs now st

/-- The exchangerate.host poll keeps the store keys. -/
theorem poll_ex_keys (st : StoreT) (resp : Option JVal) (now : ℚ) :
    (poll_exchangerate_host_eurusd_once st resp now).1.map Prod.fst = st.map Prod.fst := by
  unfold poll_exchangerate_host_eurusd_once
  cases resp with
  | none => rfl
  | some j =>
    cases j <;> try rfl
    case obj kvs =>
      dsimp only
      split <;> try rfl
      split <;> try rfl
      split <;> try rfl
      split <;> try rfl
      split <;> try rfl
      exact storeAppend_keys _ _ _

/-- The rejected branch keeps the store keys. -/
theorem chartRejectedBranch_keys (s : SysState) (key : Option String)
    (rTd rEx : Option JVal) (now : ℚ) :
    (chartRejectedBranch s key rTd rEx now).1.store.map Prod.fst =
      s.store.map Prod.fst := by
  simp only [chartRejectedBranch]
  split
  · split
    · dsimp only
      rw [poll_ex_keys, poll_td_keys]
    · dsimp only
      rw [poll_td_keys]
  · rfl

/-- The cold-start branch keeps the store keys. -/
theorem chartColdStartBranch_keys (s : SysState) (key : Option String)
    (rTd rEx : Option JVal) (now : ℚ) :
    (chartColdStartBranch s key rTd rEx now).1.store.map Prod.fst =
      s.store.map Prod.fst := by
  simp only [chartColdStartBranch]
  split
  · split
    · dsimp only
      rw [poll_ex_keys, poll_td_keys]
    · dsimp only
      rw [poll_td_keys]
  · rfl

/-- A chart frame keeps the store keys. -/
theorem update_chart_keys (s : SysState) (key : Option String)
    (r1 e1 r2 e2 : Option JVal) (now : ℚ) :
    (update_chart s key r1 e1 r2 e2 now).1.store.map Prod.fst =
      s.store.map Prod.fst := by
  simp only [update_chart]
  rw [chartColdStartBranch_keys, chartRejectedBranch_keys]

/-- C10: in every reachable state the store's key list is exactly the
statically configured symbol list, and an append for a symbol outside the
configuration is a no-op on the store: no point is ever stored for an
unconfigured symbol. -/
theorem c10_store_keys (s : SysState) (h : Reachable s) :
    s.store.map Prod.fst = SYMBOLS ∧
    ∀ (sym : String) (pt : PricePoint), sym ∉ SYMBOLS → storeAppend s.store sym pt = s.store := by
  have hkeys : s.store.map Prod.fst = SYMBOLS := by
    induction h with
    | init => rfl
    | msg m now _ ih => exact (on_message_keys _ m now).trans ih
    | pollTd key syms resp now _ ih =>
      exact (poll_td_keys _ key syms resp now).trans ih
    | pollEx resp now _ ih =>
      exact (poll_ex_keys _ resp now).trans ih
    | chart key r1 e1 r2 e2 now _ ih =>
      exact (update_chart_keys _ key r1 e1 r2 e2 now).trans ih
  exact ⟨hkeys, fun sym pt hns => storeAppend_not_mem _ _ _ (by rw [hkeys]; exact hns)⟩

/-- Witness for C10 at the initial state. -/
theorem c10_store_keys_witness : initState.store.map Prod.fst = SYMBOLS :=
  (c10_store_keys initState Reachable.init).1

end FxConsumer
